import Mathlib

/-!
# Distributed counter: the write-back counter cache

A shallow embedding of `counter_manager.go`.

* Instants and durations are integers counting nanoseconds, as in Go's `time` package.
  `Increment` and the startup load take the reading `now` of the process clock. A
  `dumpChangedKeys` pass reads the clock anew for every dirty key, inside `isExpired` and after
  the remote call of the key before: it takes `clock`, the reading for each key.
* Counter values are Go `int64`s: they are integers here, and `entry.value++` is
  addition followed by two's-complement wrap-around (`wrapInt64`).
* `map[string]*counterEntry` is a function `String → Option counterEntry`. Every pointer
  stored in the map is freshly allocated and stored under one key only, so the in-place
  `entry.value++` is an update of that key's slot.
* `map[string]bool` (the change tracker) only ever holds `true`; it is the list of its keys.
  Go ranges over a map in an unspecified order: the results below hold for every list, hence
  for every order.
* The Redis client is an external collaborator. Its replies are parameters of the functions
  that call it (`fails`, `keysRes`, `getRes`, `ttlRes`); the store behind it is `RedisDB`.
-/

namespace DistributedCounter

/-- An instant of the process clock, in nanoseconds (`time.Time`). -/
abbrev Time := Int

/-- A span of time in nanoseconds (`time.Duration`). -/
abbrev Duration := Int

/-- One hour, `time.Hour`. -/
def Hour : Duration := 3600000000000

/-- The constant `DefaultExpiration = 24 * time.Hour`. -/
def DefaultExpiration : Duration := 24 * Hour

/-- Smallest `int64`. -/
def minInt64 : Int := -9223372036854775808

/-- Largest `int64`. -/
def maxInt64 : Int := 9223372036854775807

/-- Two's-complement reduction of an integer to the `int64` range. -/
def wrapInt64 (x : Int) : Int :=
  (x + 9223372036854775808) % 18446744073709551616 - 9223372036854775808

/-- The struct `counterEntry`, with `value int64` and `expiry time.Time`. -/
structure counterEntry where
  value : Int
  expiry : Time
  deriving DecidableEq, Repr

/-- The struct `CounterManager`: the prefix, the counter table and the change tracker.
The lock, the client handle and the context carry no counter data. -/
structure CounterManager where
  keyPrefix : String
  counters : String → Option counterEntry
  changed : List String

/-- The method `isExpired`: `time.Now().After(entry.expiry)`, with `now` the clock reading. -/
def isExpired (now : Time) (entry : counterEntry) : Bool :=
  decide (entry.expiry < now)

/-- The method `Increment`: the key is prefixed, a missing or expired entry is replaced by a
fresh one (value 0, expiry `now + DefaultExpiration`), the value is incremented and the key
marked as changed. Returns the post-increment value and the manager afterwards. -/
def Increment (cm : CounterManager) (key : String) (now : Time) : Int × CounterManager :=
  let key := cm.keyPrefix ++ key
  let entry : counterEntry :=
    match cm.counters key with
    | some e => if isExpired now e then { value := 0, expiry := now + DefaultExpiration } else e
    | none => { value := 0, expiry := now + DefaultExpiration }
  let entry : counterEntry := { entry with value := wrapInt64 (entry.value + 1) }
  (entry.value,
    { cm with
      counters := Function.update cm.counters key (some entry)
      changed := cm.changed.insert key })

/-- The method `Get`: the stored value of the prefixed key, `0` when the table has no such key. -/
def Get (cm : CounterManager) (key : String) : Int :=
  match cm.counters (cm.keyPrefix ++ key) with
  | none => 0
  | some entry => entry.value

/-- The calls `dumpChangedKeys` makes on the Redis client. -/
inductive RedisCmd where
  | Del (key : String)
  | Set (key : String) (value : Int) (expiration : Duration)
  deriving DecidableEq, Repr

/-- Modelled from the spec: a stored remote value with its absolute expiry (`none`: no
expiry set), for the Remote Store Client of section 6, which is not part of the sources. -/
structure RedisEntry where
  value : Int
  expireAt : Option Time
  deriving DecidableEq, Repr

/-- Modelled from the spec: the content of the remote key-value store of section 6,
an association list with at most the first binding of a key in force. -/
abbrev RedisDB := List (String × RedisEntry)

/-- Modelled from the spec: the binding of `key` in the remote store. -/
def redisLookup (db : RedisDB) (key : String) : Option RedisEntry :=
  match db with
  | [] => none
  | (k, e) :: rest => if k = key then some e else redisLookup rest key

/-- Modelled from the spec: a remote entry is live until its expiry. -/
def redisLive (now : Time) (e : RedisEntry) : Bool :=
  match e.expireAt with
  | none => true
  | some t => decide (now < t)

/-- Modelled from the spec: the effect of a successful `delete(key)` or
`set(key, integer, ttl)` issued at `now`; a zero expiration sets no expiry. -/
def redisApply (now : Time) (db : RedisDB) : RedisCmd → RedisDB
  | RedisCmd.Del key => db.filter (fun p => decide (p.1 ≠ key))
  | RedisCmd.Set key value expiration =>
      (key, { value := value,
              expireAt := if expiration = 0 then none else some (now + expiration) })
        :: db.filter (fun p => decide (p.1 ≠ key))

/-- Modelled from the spec: a call that fails leaves the remote store as it was. -/
def redisExec (now : Time) (fails : RedisCmd → Bool) (db : RedisDB) (cmd : RedisCmd) : RedisDB :=
  if fails cmd then db else redisApply now db cmd

/-- The glob `counter_*` of the startup enumeration: the key starts with `counter_`. -/
def matchCounterPattern (key : String) : Bool :=
  "counter_".data.isPrefixOf key.data

/-- Modelled from the spec: `enumerate(prefix)`, the live remote keys under `counter_*`,
each listed once. -/
def redisKeys (now : Time) (db : RedisDB) : List String :=
  ((db.map (fun p => p.1)).dedup).filter
    (fun k => matchCounterPattern k &&
      (match redisLookup db k with
       | some e => redisLive now e
       | none => false))

/-- Modelled from the spec: `get(key)`, failing with NotFound on a missing or expired key. -/
def redisGet (now : Time) (db : RedisDB) (key : String) : Except String Int :=
  match redisLookup db key with
  | some e => if redisLive now e then Except.ok e.value else Except.error "redis: nil"
  | none => Except.error "redis: nil"

/-- The key a client call is about. -/
def cmdKey : RedisCmd → String
  | RedisCmd.Del key => key
  | RedisCmd.Set key _ _ => key

/-- The test `!exists || cm.isExpired(entry)` on the table slot of a key. -/
def expiredOrMissing (now : Time) (slot : Option counterEntry) : Bool :=
  match slot with
  | none => true
  | some entry => isExpired now entry

/-- The client call the loop body of `dumpChangedKeys` issues for `key` on the table
`counters`: `Del` for a missing or expired key, `Set` with the default expiration otherwise. -/
def dumpCmd (now : Time) (counters : String → Option counterEntry) (key : String) : RedisCmd :=
  match counters key with
  | none => RedisCmd.Del key
  | some entry =>
    if isExpired now entry then RedisCmd.Del key
    else RedisCmd.Set key entry.value DefaultExpiration

/-- The state threaded through one reconciliation pass: the counter table, the remote
store, and the client calls issued so far (oldest first). -/
structure DumpState where
  counters : String → Option counterEntry
  redis : RedisDB
  issued : List RedisCmd

/-- The body of the `for key := range cm.changed` loop of `dumpChangedKeys`: a key that is
missing or expired is deleted remotely and locally, any other key is written with the default
expiration. A failing client call is printed and the loop goes on. -/
def dumpKey (now : Time) (fails : RedisCmd → Bool) (st : DumpState) (key : String) : DumpState :=
  let deleted : DumpState :=
    { counters := Function.update st.counters key none
      redis := redisExec now fails st.redis (RedisCmd.Del key)
      issued := st.issued ++ [RedisCmd.Del key] }
  match st.counters key with
  | none => deleted
  | some entry =>
    if isExpired now entry then deleted
    else
      { st with
        redis := redisExec now fails st.redis (RedisCmd.Set key entry.value DefaultExpiration)
        issued := st.issued ++ [RedisCmd.Set key entry.value DefaultExpiration] }

/-- The loop of `dumpChangedKeys` over the keys of the change tracker. Every iteration calls
`isExpired`, which reads the clock: `clock key` is the reading taken when `key` is examined
(the keys of a Go map are distinct, so a pass examines each key once). -/
def dumpLoop (clock : String → Time) (fails : RedisCmd → Bool) (st : DumpState)
    (keys : List String) : DumpState :=
  keys.foldl (fun st key => dumpKey (clock key) fails st key) st

/-- The method `dumpChangedKeys`: one reconciliation pass against the remote store `db`, with
`clock` the clock reading taken at each dirty key and `fails` telling which client calls
return an error. Returns the manager, the remote store and the calls issued. -/
def dumpChangedKeys (cm : CounterManager) (db : RedisDB) (fails : RedisCmd → Bool)
    (clock : String → Time) : CounterManager × RedisDB × List RedisCmd :=
  let st := dumpLoop clock fails { counters := cm.counters, redis := db, issued := [] } cm.changed
  ({ cm with counters := st.counters, changed := [] }, st.redis, st.issued)

/-- The client call a pass issues for `key`, examined at its own clock reading. -/
def passCmd (clock : String → Time) (counters : String → Option counterEntry) (key : String) :
    RedisCmd :=
  dumpCmd (clock key) counters key

/-- The execution of a client call of a pass, at the clock reading of the key it is about. -/
def passExec (clock : String → Time) (fails : RedisCmd → Bool) (db : RedisDB) (cmd : RedisCmd) :
    RedisDB :=
  redisExec (clock (cmdKey cmd)) fails db cmd

/-- The body of the `for _, key := range keys` loop of `NewCounterManager`: a key whose
value or TTL fetch fails is skipped; a non-positive TTL is replaced by the default. -/
def loadKey (getRes : String → Except String Int) (ttlRes : String → Except String Duration)
    (now : Time) (counters : String → Option counterEntry) (key : String) :
    String → Option counterEntry :=
  match getRes key with
  | Except.error _ => counters
  | Except.ok val =>
    match ttlRes key with
    | Except.error _ => counters
    | Except.ok ttl =>
      let ttl := if ttl ≤ 0 then DefaultExpiration else ttl
      Function.update counters key (some { value := val, expiry := now + ttl })

/-- The loop of `NewCounterManager` over the enumerated keys. -/
def loadKeys (getRes : String → Except String Int) (ttlRes : String → Except String Duration)
    (now : Time) (counters : String → Option counterEntry) (keys : List String) :
    String → Option counterEntry :=
  keys.foldl (loadKey getRes ttlRes now) counters

/-- The constructor `NewCounterManager`: the startup load at `now`, from the reply `keysRes` to
`Keys("counter_*")` and the replies `getRes`, `ttlRes` to the per-key `Get` and `TTL`. -/
def NewCounterManager (keysRes : Except String (List String))
    (getRes : String → Except String Int) (ttlRes : String → Except String Duration)
    (now : Time) : CounterManager :=
  { keyPrefix := "counter_"
    counters :=
      match keysRes with
      | Except.error _ => fun _ => none
      | Except.ok keys => loadKeys getRes ttlRes now (fun _ => none) keys
    changed := [] }

/-- Successive `Increment` calls on one key, one per clock reading, in order. -/
def incrementAll (cm : CounterManager) (key : String) : List Time → List Int × CounterManager
  | [] => ([], cm)
  | t :: ts =>
    let r := Increment cm key t
    let rest := incrementAll r.2 key ts
    (r.1 :: rest.1, rest.2)

/-- A manager with the expired entry `counter_b` (value 4, expiry 50), the entry `counter_c`
(value 7, expiry 200), and both keys dirty. -/
def exampleManager : CounterManager :=
  { keyPrefix := "counter_"
    counters := fun key =>
      if key = "counter_b" then some { value := 4, expiry := 50 }
      else if key = "counter_c" then some { value := 7, expiry := 200 }
      else none
    changed := ["counter_b", "counter_c"] }

/-- A manager built on an empty remote store, after one `Increment` of `k` at time 0 and a
reconciliation pass five seconds later. -/
def flushedManager : CounterManager :=
  (dumpChangedKeys
    (Increment (NewCounterManager (Except.ok []) (fun _ => Except.error "redis: nil")
      (fun _ => Except.error "redis: nil") 0) "k" 0).2
    [] (fun _ => false) (fun _ => 5000000000)).1

/-- A manager built on an empty remote store, after five `Increment` calls on `k` at the
times 0 to 4. -/
def fiveIncrements : CounterManager :=
  (incrementAll (NewCounterManager (Except.ok []) (fun _ => Except.error "redis: nil")
    (fun _ => Except.error "redis: nil") 0) "k" [0, 1, 2, 3, 4]).2

/-- An operation on the cache as seen between critical sections: an `Increment` call at a
clock reading, a `Get` call, or one `dumpChangedKeys` pass with the clock reading of each
dirty key and the failure pattern of its client calls. -/
inductive Op where
  | increment (key : String) (now : Time)
  | get (key : String)
  | dump (fails : RedisCmd → Bool) (clock : String → Time)

/-- The effect of one operation on the manager and the remote store. `Get` only reads:
the method assigns no field of the manager and makes no client call. -/
def step (st : CounterManager × RedisDB) : Op → CounterManager × RedisDB
  | Op.increment key now => ((Increment st.1 key now).2, st.2)
  | Op.get _ => st
  | Op.dump fails clock =>
      ((dumpChangedKeys st.1 st.2 fails clock).1, (dumpChangedKeys st.1 st.2 fails clock).2.1)

/-- A sequence of operations, one after another. -/
def run (st : CounterManager × RedisDB) (ops : List Op) : CounterManager × RedisDB :=
  ops.foldl step st

/-- A manager that loaded `counter_k` with the largest `int64` value and a remote TTL of
one minute, at time 0. -/
def saturatedManager : CounterManager :=
  NewCounterManager (Except.ok ["counter_k"]) (fun _ => Except.ok 9223372036854775807)
    (fun _ => Except.ok 60000000000) 0

/-- A manager with the entries `counter_p` (value 3) and `counter_q` (value 5), both expiring
at time 200 and both dirty. -/
def twoDirty : CounterManager :=
  { keyPrefix := "counter_"
    counters := fun key =>
      if key = "counter_p" then some { value := 3, expiry := 200 }
      else if key = "counter_q" then some { value := 5, expiry := 200 }
      else none
    changed := ["counter_p", "counter_q"] }

/-- The clock readings of a pass that starts at time 100, examines `counter_p` at time 150
and, after the remote call for it has returned, `counter_q` at time 250. -/
def lateClock : String → Time :=
  fun key => if key = "counter_q" then 250 else 150

/-! ## Increment -/

theorem wrapInt64_of_range (x : Int) (hlo : minInt64 ≤ x) (hhi : x ≤ maxInt64) :
    wrapInt64 x = x := by
  unfold wrapInt64
  unfold minInt64 at hlo
  unfold maxInt64 at hhi
  omega

theorem wrapInt64_one : wrapInt64 1 = 1 := by
  decide

theorem wrapInt64_succ (x : Int) : wrapInt64 (wrapInt64 x + 1) = wrapInt64 (x + 1) := by
  unfold wrapInt64
  omega

theorem Increment_keyPrefix (cm : CounterManager) (k : String) (now : Time) :
    (Increment cm k now).2.keyPrefix = cm.keyPrefix := by
  simp [Increment]

theorem Increment_fresh (cm : CounterManager) (k : String) (now : Time)
    (h : cm.counters (cm.keyPrefix ++ k) = none ∨
      ∃ e, cm.counters (cm.keyPrefix ++ k) = some e ∧ e.expiry < now) :
    (Increment cm k now).1 = 1 ∧
    (Increment cm k now).2.counters (cm.keyPrefix ++ k)
      = some { value := 1, expiry := now + DefaultExpiration } := by
  rcases h with h | ⟨e, h, hlt⟩
  · simp [Increment, h, wrapInt64_one]
  · simp [Increment, h, isExpired, hlt, wrapInt64_one]

theorem Increment_live (cm : CounterManager) (k : String) (now : Time) (e : counterEntry)
    (h : cm.counters (cm.keyPrefix ++ k) = some e) (hle : now ≤ e.expiry) :
    (Increment cm k now).1 = wrapInt64 (e.value + 1) ∧
    (Increment cm k now).2.counters (cm.keyPrefix ++ k)
      = some { value := wrapInt64 (e.value + 1), expiry := e.expiry } := by
  have hne : ¬ e.expiry < now := not_lt.mpr hle
  simp [Increment, h, isExpired, hne]

/-- Increments of a live entry holding `wrapInt64 s`, all made no later than its expiry `x`:
the calls return the wrapped values of `s + 1, s + 2, ...` and leave the last one stored. -/
theorem incrementAll_live (k : String) (x : Time) :
    ∀ (ts : List Time) (cm : CounterManager) (s : Nat),
      cm.counters (cm.keyPrefix ++ k) = some { value := wrapInt64 s, expiry := x } →
      (∀ t ∈ ts, t ≤ x) →
      (incrementAll cm k ts).1
          = (List.range' (s + 1) ts.length).map (fun i : Nat => wrapInt64 (i : Int)) ∧
      (incrementAll cm k ts).2.keyPrefix = cm.keyPrefix ∧
      (incrementAll cm k ts).2.counters (cm.keyPrefix ++ k)
          = some { value := wrapInt64 ((s + ts.length : Nat) : Int), expiry := x } := by
  intro ts
  induction ts with
  | nil => intro cm s h _; simp [incrementAll, h]
  | cons t ts ih =>
    intro cm s h hts
    have ht : t ≤ x := hts t (List.mem_cons_self _ _)
    have hstep := Increment_live cm k t _ h ht
    have hkp := Increment_keyPrefix cm k t
    have hval : wrapInt64 (wrapInt64 (s : Int) + 1) = wrapInt64 ((s + 1 : Nat) : Int) := by
      rw [wrapInt64_succ]; push_cast; rfl
    simp only [hval] at hstep
    have hrec := ih (Increment cm k t).2 (s + 1) (by rw [hkp]; exact hstep.2)
      (fun u hu => hts u (List.mem_cons_of_mem _ hu))
    rw [hkp] at hrec
    refine ⟨?_, hrec.2.1, ?_⟩
    · simp only [incrementAll, List.length_cons, List.range'_succ, List.map_cons]
      rw [hstep.1, hrec.1]
    · have hlen : s + (t :: ts).length = s + 1 + ts.length := by
        simp only [List.length_cons]; omega
      rw [hlen]
      exact hrec.2.2

/-- C2. `N = rest.length + 1` successive `Increment` calls on one key, the first at `t1` on a
table where the key is absent or expired, the others before the expiry `t1 + 24h` of the entry
the first call creates: the calls return the `int64` values of `1, 2, ..., N` in that order and
`Get` afterwards returns that of `N`; these are the integers `1, ..., N` themselves,
none skipped and none repeated, for every `N` an `int64` return value can hold. -/
theorem incrementAll_returns_one_to_N (cm : CounterManager) (k : String) (t1 : Time)
    (rest : List Time) (hp : cm.keyPrefix = "counter_")
    (hfresh : cm.counters ("counter_" ++ k) = none ∨
      ∃ e, cm.counters ("counter_" ++ k) = some e ∧ e.expiry < t1)
    (hlive : ∀ t ∈ rest, t < t1 + DefaultExpiration) :
    (incrementAll cm k (t1 :: rest)).1
        = (List.range' 1 (rest.length + 1)).map (fun i : Nat => wrapInt64 (i : Int)) ∧
    Get (incrementAll cm k (t1 :: rest)).2 k = wrapInt64 ((rest.length + 1 : Nat) : Int) ∧
    (((rest.length + 1 : Nat) : Int) ≤ maxInt64 →
      (incrementAll cm k (t1 :: rest)).1
          = (List.range' 1 (rest.length + 1)).map (fun i : Nat => (i : Int)) ∧
      Get (incrementAll cm k (t1 :: rest)).2 k = ((rest.length + 1 : Nat) : Int)) := by
  have hfresh2 : cm.counters (cm.keyPrefix ++ k) = none ∨
      ∃ e, cm.counters (cm.keyPrefix ++ k) = some e ∧ e.expiry < t1 := by
    rw [hp]; exact hfresh
  have hfirst := Increment_fresh cm k t1 hfresh2
  have hkp := Increment_keyPrefix cm k t1
  have hone : (1 : Int) = wrapInt64 ((1 : Nat) : Int) := by decide
  have hrec := incrementAll_live k (t1 + DefaultExpiration) rest (Increment cm k t1).2 1
    (by rw [hkp, hfirst.2]; rfl)
    (fun t ht => le_of_lt (hlive t ht))
  rw [hkp] at hrec
  have hlist : (incrementAll cm k (t1 :: rest)).1
      = (List.range' 1 (rest.length + 1)).map (fun i : Nat => wrapInt64 (i : Int)) := by
    simp only [incrementAll, List.range'_succ, List.map_cons]
    rw [hfirst.1, hrec.1]
    rfl
  have hget : Get (incrementAll cm k (t1 :: rest)).2 k
      = wrapInt64 ((rest.length + 1 : Nat) : Int) := by
    have h3 := hrec.2.2
    have h2 := hrec.2.1
    simp only [incrementAll]
    unfold Get
    rw [h2, h3, Nat.add_comm 1 rest.length]
  refine ⟨hlist, hget, ?_⟩
  intro hN
  refine ⟨?_, ?_⟩
  · rw [hlist]
    apply List.map_congr_left
    intro i hi
    have hi2 := (List.mem_range'_1.mp hi).2
    apply wrapInt64_of_range
    · unfold minInt64; omega
    · omega
  · rw [hget]
    apply wrapInt64_of_range
    · unfold minInt64; omega
    · exact hN

/-- An instance of C2: three increments of a missing key at times 10, 11 and 12 return
1, 2 and 3, and `Get` then returns 3. -/
theorem incrementAll_returns_one_to_N_witness :
    (incrementAll { keyPrefix := "counter_", counters := fun _ => none, changed := [] }
        "k" [10, 11, 12]).1 = [1, 2, 3] ∧
    Get (incrementAll { keyPrefix := "counter_", counters := fun _ => none, changed := [] }
        "k" [10, 11, 12]).2 "k" = 3 :=
  (incrementAll_returns_one_to_N
      { keyPrefix := "counter_", counters := fun _ => none, changed := [] } "k" 10 [11, 12]
      rfl (Or.inl rfl) (by decide)).2.2 (by decide)

/-! ## Startup load -/

theorem loadKey_of_ne (getRes : String → Except String Int)
    (ttlRes : String → Except String Duration) (now : Time)
    (c : String → Option counterEntry) (key K : String) (h : K ≠ key) :
    loadKey getRes ttlRes now c key K = c K := by
  unfold loadKey
  cases getRes key with
  | error _ => rfl
  | ok v =>
    cases ttlRes key with
    | error _ => rfl
    | ok ttl => simp [Function.update_noteq h]

theorem loadKey_self (getRes : String → Except String Int)
    (ttlRes : String → Except String Duration) (now : Time)
    (c : String → Option counterEntry) (K : String) :
    loadKey getRes ttlRes now c K K =
      match getRes K, ttlRes K with
      | Except.ok v, Except.ok ttl =>
          some { value := v, expiry := now + (if ttl ≤ 0 then DefaultExpiration else ttl) }
      | _, _ => c K := by
  unfold loadKey
  cases getRes K with
  | error _ => rfl
  | ok v =>
    cases ttlRes K with
    | error _ => rfl
    | ok ttl => simp

theorem loadKeys_of_not_mem (getRes : String → Except String Int)
    (ttlRes : String → Except String Duration) (now : Time) (K : String) :
    ∀ (keys : List String) (c : String → Option counterEntry),
      K ∉ keys → loadKeys getRes ttlRes now c keys K = c K := by
  intro keys
  induction keys with
  | nil => intro c _; rfl
  | cons a l ih =>
    intro c h
    have ha : K ≠ a := fun e => h (e ▸ List.mem_cons_self _ _)
    have hl : K ∉ l := fun e => h (List.mem_cons_of_mem _ e)
    show loadKeys getRes ttlRes now (loadKey getRes ttlRes now c a) l K = c K
    rw [ih _ hl, loadKey_of_ne _ _ _ _ _ _ ha]

theorem loadKeys_of_mem (getRes : String → Except String Int)
    (ttlRes : String → Except String Duration) (now : Time) (K : String) :
    ∀ (keys : List String) (c : String → Option counterEntry),
      K ∈ keys →
      loadKeys getRes ttlRes now c keys K =
        match getRes K, ttlRes K with
        | Except.ok v, Except.ok ttl =>
            some { value := v, expiry := now + (if ttl ≤ 0 then DefaultExpiration else ttl) }
        | _, _ => c K := by
  intro keys
  induction keys with
  | nil => intro c h; cases h
  | cons a l ih =>
    intro c h
    show loadKeys getRes ttlRes now (loadKey getRes ttlRes now c a) l K = _
    by_cases hl : K ∈ l
    · rw [ih _ hl]
      by_cases ha : K = a
      · subst ha
        rw [loadKey_self]
        cases getRes K with
        | error _ => rfl
        | ok v =>
          cases ttlRes K with
          | error _ => rfl
          | ok ttl => rfl
      · rw [loadKey_of_ne _ _ _ _ _ _ ha]
    · have ha : K = a := by
        rcases List.mem_cons.mp h with h1 | h1
        · exact h1
        · exact absurd h1 hl
      subst ha
      rw [loadKeys_of_not_mem _ _ _ _ _ _ hl, loadKey_self]

/-- C9. The startup load at `now`, given the enumerated `keys` and the replies `getRes`,
`ttlRes` of the value and TTL fetches: the table holds exactly the enumerated keys whose two
fetches succeeded, each with the fetched value and the expiry `now + ttl` when `ttl > 0`,
`now + 24h` when `ttl <= 0`, so a failed fetch leaves out that key alone; a failed
enumeration gives the empty table; the dirty set starts empty. -/
theorem NewCounterManager_load (getRes : String → Except String Int)
    (ttlRes : String → Except String Duration) (now : Time) :
    (∀ (keys : List String) (K : String),
      (NewCounterManager (Except.ok keys) getRes ttlRes now).counters K =
        if K ∈ keys then
          match getRes K, ttlRes K with
          | Except.ok v, Except.ok ttl =>
              some { value := v
                     expiry := if ttl ≤ 0 then now + DefaultExpiration else now + ttl }
          | _, _ => none
        else none) ∧
    (∀ (err : String) (K : String),
      (NewCounterManager (Except.error err) getRes ttlRes now).counters K = none) ∧
    (∀ keysRes, (NewCounterManager keysRes getRes ttlRes now).changed = []) := by
  refine ⟨?_, ?_, ?_⟩
  · intro keys K
    by_cases h : K ∈ keys
    · simp only [NewCounterManager, h, if_true]
      rw [loadKeys_of_mem _ _ _ _ _ _ h]
      cases getRes K with
      | error _ => rfl
      | ok v =>
        cases ttlRes K with
        | error _ => rfl
        | ok ttl => by_cases ht : ttl ≤ 0 <;> simp [ht]
    · simp only [NewCounterManager, h, if_false]
      rw [loadKeys_of_not_mem _ _ _ _ _ _ h]
  · intro err K
    rfl
  · intro keysRes
    rfl

/-! ## The reconciliation pass -/

theorem dumpKey_counters (now : Time) (fails : RedisCmd → Bool) (st : DumpState) (key : String) :
    (dumpKey now fails st key).counters =
      if expiredOrMissing now (st.counters key) then Function.update st.counters key none
      else st.counters := by
  unfold dumpKey expiredOrMissing
  cases h : st.counters key with
  | none => simp
  | some e => by_cases hx : isExpired now e = true <;> simp [hx]

theorem dumpKey_redis (now : Time) (fails : RedisCmd → Bool) (st : DumpState) (key : String) :
    (dumpKey now fails st key).redis
      = redisExec now fails st.redis (dumpCmd now st.counters key) := by
  unfold dumpKey dumpCmd
  cases h : st.counters key with
  | none => simp
  | some e => by_cases hx : isExpired now e = true <;> simp [hx]

theorem dumpKey_issued (now : Time) (fails : RedisCmd → Bool) (st : DumpState) (key : String) :
    (dumpKey now fails st key).issued = st.issued ++ [dumpCmd now st.counters key] := by
  unfold dumpKey dumpCmd
  cases h : st.counters key with
  | none => simp
  | some e => by_cases hx : isExpired now e = true <;> simp [hx]

/-- The loop body keeps every slot that it does not delete, and a deleted slot was
missing or expired: the missing-or-expired test on a key, at the reading `t` of that key, is
unchanged by a step of the loop. -/
theorem dumpKey_expiredOrMissing (now : Time) (fails : RedisCmd → Bool) (st : DumpState)
    (key K : String) (t : Time) (ht : K = key → t = now) :
    expiredOrMissing t ((dumpKey now fails st key).counters K)
      = expiredOrMissing t (st.counters K) := by
  rw [dumpKey_counters]
  by_cases hd : expiredOrMissing now (st.counters key) = true
  · by_cases hk : K = key
    · subst hk
      rw [ht rfl, if_pos hd, Function.update_same, hd]
      rfl
    · rw [if_pos hd, Function.update_noteq hk]
  · rw [if_neg hd]

theorem dumpKey_dumpCmd (now : Time) (fails : RedisCmd → Bool) (st : DumpState)
    (key K : String) (t : Time) (ht : K = key → t = now) :
    dumpCmd t (dumpKey now fails st key).counters K = dumpCmd t st.counters K := by
  rw [dumpKey_counters]
  by_cases hd : expiredOrMissing now (st.counters key) = true
  · by_cases hk : K = key
    · subst hk
      rw [ht rfl, if_pos hd]
      unfold dumpCmd
      rw [Function.update_same]
      cases h : st.counters K with
      | none => rfl
      | some e =>
        have hx : isExpired now e = true := by simpa [expiredOrMissing, h] using hd
        simp [hx]
    · rw [if_pos hd]
      unfold dumpCmd
      rw [Function.update_noteq hk]
  · rw [if_neg hd]

theorem dumpLoop_cons (clock : String → Time) (fails : RedisCmd → Bool) (st : DumpState)
    (a : String) (l : List String) :
    dumpLoop clock fails st (a :: l) = dumpLoop clock fails (dumpKey (clock a) fails st a) l := by
  rfl

theorem dumpKey_passCmd (clock : String → Time) (fails : RedisCmd → Bool) (st : DumpState)
    (a : String) :
    passCmd clock (dumpKey (clock a) fails st a).counters = passCmd clock st.counters :=
  funext (fun K => dumpKey_dumpCmd (clock a) fails st a K (clock K) (fun h => by rw [h]))

/-- The table after the loop: the dirty keys that were missing, or expired at their own
clock reading, are gone; every other slot is as before. -/
theorem dumpLoop_counters (clock : String → Time) (fails : RedisCmd → Bool) (K : String) :
    ∀ (keys : List String) (st : DumpState),
      (dumpLoop clock fails st keys).counters K =
        if K ∈ keys ∧ expiredOrMissing (clock K) (st.counters K) = true then none
        else st.counters K := by
  intro keys
  induction keys with
  | nil => intro st; simp [dumpLoop]
  | cons a l ih =>
    intro st
    rw [dumpLoop_cons, ih,
      dumpKey_expiredOrMissing (clock a) fails st a K (clock K) (fun h => by rw [h])]
    by_cases hd : expiredOrMissing (clock K) (st.counters K) = true
    · by_cases hk : K = a
      · subst hk
        simp [hd, dumpKey_counters]
      · have hkeep : (dumpKey (clock a) fails st a).counters K = st.counters K := by
          rw [dumpKey_counters]
          by_cases hda : expiredOrMissing (clock a) (st.counters a) = true
          · rw [if_pos hda, Function.update_noteq hk]
          · rw [if_neg hda]
        simp [hd, hk, hkeep]
    · have hkeep : (dumpKey (clock a) fails st a).counters K = st.counters K := by
        rw [dumpKey_counters]
        by_cases hda : expiredOrMissing (clock a) (st.counters a) = true
        · have hk : K ≠ a := fun e => hd (e ▸ hda)
          rw [if_pos hda, Function.update_noteq hk]
        · rw [if_neg hda]
      simp [hd, hkeep]

/-- The calls issued by the loop: one per dirty key, in order, decided by the table at the
start of the loop and the clock reading of the key. -/
theorem dumpLoop_issued (clock : String → Time) (fails : RedisCmd → Bool) :
    ∀ (keys : List String) (st : DumpState),
      (dumpLoop clock fails st keys).issued
        = st.issued ++ keys.map (passCmd clock st.counters) := by
  intro keys
  induction keys with
  | nil => intro st; simp [dumpLoop]
  | cons a l ih =>
    intro st
    rw [dumpLoop_cons, ih, dumpKey_issued, dumpKey_passCmd]
    simp [passCmd]

theorem cmdKey_dumpCmd (now : Time) (c : String → Option counterEntry) (K : String) :
    cmdKey (dumpCmd now c K) = K := by
  unfold dumpCmd
  cases c K with
  | none => rfl
  | some e => by_cases hx : isExpired now e = true <;> simp [hx, cmdKey]

theorem cmdKey_passCmd (clock : String → Time) (c : String → Option counterEntry)
    (K : String) : cmdKey (passCmd clock c K) = K :=
  cmdKey_dumpCmd (clock K) c K

/-- The remote store after the loop: the issued calls executed in order, each at the clock
reading of its key. -/
theorem dumpLoop_redis (clock : String → Time) (fails : RedisCmd → Bool) :
    ∀ (keys : List String) (st : DumpState),
      (dumpLoop clock fails st keys).redis
        = (keys.map (passCmd clock st.counters)).foldl (passExec clock fails) st.redis := by
  intro keys
  induction keys with
  | nil => intro st; simp [dumpLoop]
  | cons a l ih =>
    intro st
    rw [dumpLoop_cons, ih, dumpKey_redis, dumpKey_passCmd]
    simp only [List.map_cons, List.foldl_cons]
    have hexec : passExec clock fails st.redis (passCmd clock st.counters a)
        = redisExec (clock a) fails st.redis (dumpCmd (clock a) st.counters a) := by
      unfold passExec
      rw [cmdKey_passCmd]
      rfl
    rw [hexec]

/-! ## The remote store -/

theorem redisLookup_filter (key K : String) :
    ∀ db : RedisDB,
      redisLookup (db.filter (fun p => decide (p.1 ≠ key))) K
        = if K = key then none else redisLookup db K := by
  intro db
  induction db with
  | nil => simp [redisLookup]
  | cons p rest ih =>
    obtain ⟨k, e⟩ := p
    by_cases hk : k = key
    · subst hk
      by_cases hK : K = k
      · subst hK
        simpa [List.filter, redisLookup] using ih
      · have hK2 : ¬ k = K := fun h => hK h.symm
        simpa [List.filter, redisLookup, hK, hK2] using ih
    · by_cases hK : K = key
      · subst hK
        simpa [List.filter, redisLookup, hk] using ih
      · by_cases hkK : k = K
        · subst hkK
          simp [List.filter, redisLookup, hk]
        · simpa [List.filter, redisLookup, hk, hK, hkK] using ih

theorem redisLookup_cons (k : String) (e : RedisEntry) (rest : RedisDB) (K : String) :
    redisLookup ((k, e) :: rest) K = if k = K then some e else redisLookup rest K := by
  rfl

theorem redisApply_del (now : Time) (db : RedisDB) (key : String) :
    redisApply now db (RedisCmd.Del key) = db.filter (fun p => decide (p.1 ≠ key)) := by
  rfl

theorem redisApply_set (now : Time) (db : RedisDB) (key : String) (v : Int) (x : Duration) :
    redisApply now db (RedisCmd.Set key v x)
      = (key, { value := v, expireAt := if x = 0 then none else some (now + x) })
          :: db.filter (fun p => decide (p.1 ≠ key)) := by
  rfl

theorem redisExec_of_ok (now : Time) (fails : RedisCmd → Bool) (db : RedisDB) (cmd : RedisCmd)
    (hok : fails cmd = false) : redisExec now fails db cmd = redisApply now db cmd := by
  unfold redisExec
  rw [hok]
  rfl

theorem redisExec_lookup_of_ne (now : Time) (fails : RedisCmd → Bool) (db : RedisDB)
    (cmd : RedisCmd) (K : String) (h : cmdKey cmd ≠ K) :
    redisLookup (redisExec now fails db cmd) K = redisLookup db K := by
  unfold redisExec
  by_cases hf : fails cmd = true
  · simp [hf]
  · have hK : ¬ K = cmdKey cmd := fun e => h e.symm
    rw [if_neg hf]
    cases cmd with
    | Del key =>
      simp only [cmdKey] at h hK
      rw [redisApply_del, redisLookup_filter, if_neg hK]
    | Set key v x =>
      simp only [cmdKey] at h hK
      rw [redisApply_set, redisLookup_cons, if_neg h, redisLookup_filter, if_neg hK]

theorem redisExec_lookup_set (now : Time) (fails : RedisCmd → Bool) (db : RedisDB)
    (K : String) (v : Int) (x : Duration) (hok : fails (RedisCmd.Set K v x) = false) :
    redisLookup (redisExec now fails db (RedisCmd.Set K v x)) K
      = some { value := v, expireAt := if x = 0 then none else some (now + x) } := by
  rw [redisExec_of_ok now fails db _ hok, redisApply_set, redisLookup_cons, if_pos rfl]

theorem redisExec_lookup_del (now : Time) (fails : RedisCmd → Bool) (db : RedisDB)
    (K : String) (hok : fails (RedisCmd.Del K) = false) :
    redisLookup (redisExec now fails db (RedisCmd.Del K)) K = none := by
  rw [redisExec_of_ok now fails db _ hok, redisApply_del, redisLookup_filter, if_pos rfl]

/-- Executing the calls of a pass, in which every call about `K` is the same successful `Set`:
the binding of `K` at the end is the one that call writes at the clock reading of `K`, as soon
as the call is in the list or the binding was there at the start. -/
theorem redis_foldl_set (clock : String → Time) (fails : RedisCmd → Bool) (K : String)
    (v : Int) (x : Duration) (hok : fails (RedisCmd.Set K v x) = false) :
    ∀ (cmds : List RedisCmd) (db : RedisDB),
      (∀ c ∈ cmds, cmdKey c = K → c = RedisCmd.Set K v x) →
      (redisLookup db K
          = some { value := v, expireAt := if x = 0 then none else some (clock K + x) } ∨
        RedisCmd.Set K v x ∈ cmds) →
      redisLookup (cmds.foldl (passExec clock fails) db) K
        = some { value := v, expireAt := if x = 0 then none else some (clock K + x) } := by
  intro cmds
  induction cmds with
  | nil =>
    intro db _ h
    rcases h with h | h
    · exact h
    · cases h
  | cons c l ih =>
    intro db hall h
    have hall2 : ∀ c2 ∈ l, cmdKey c2 = K → c2 = RedisCmd.Set K v x :=
      fun c2 hc2 => hall c2 (List.mem_cons_of_mem _ hc2)
    show redisLookup (l.foldl (passExec clock fails) (passExec clock fails db c)) K = _
    by_cases hc : cmdKey c = K
    · have hceq := hall c (List.mem_cons_self _ _) hc
      apply ih _ hall2
      left
      rw [hceq]
      exact redisExec_lookup_set (clock K) fails db K v x hok
    · apply ih _ hall2
      rcases h with h | h
      · left
        unfold passExec
        rw [redisExec_lookup_of_ne (clock (cmdKey c)) fails db c K hc]
        exact h
      · right
        rcases List.mem_cons.mp h with h1 | h1
        · exact absurd (by rw [← h1]; rfl) hc
        · exact h1

theorem DefaultExpiration_ne_zero : DefaultExpiration ≠ 0 := by
  decide

theorem dumpCmd_of_live (now : Time) (c : String → Option counterEntry) (K : String)
    (e : counterEntry) (he : c K = some e) (hlive : now ≤ e.expiry) :
    dumpCmd now c K = RedisCmd.Set K e.value DefaultExpiration := by
  have hne : ¬ e.expiry < now := not_lt.mpr hlive
  simp [dumpCmd, he, isExpired, hne]

theorem dumpCmd_of_expired (now : Time) (c : String → Option counterEntry) (K : String)
    (e : counterEntry) (he : c K = some e) (hexp : e.expiry < now) :
    dumpCmd now c K = RedisCmd.Del K := by
  simp [dumpCmd, he, isExpired, hexp]

theorem dumpChangedKeys_counters (cm : CounterManager) (db : RedisDB)
    (fails : RedisCmd → Bool) (clock : String → Time) (K : String) :
    (dumpChangedKeys cm db fails clock).1.counters K =
      if K ∈ cm.changed ∧ expiredOrMissing (clock K) (cm.counters K) = true then none
      else cm.counters K := by
  unfold dumpChangedKeys
  exact dumpLoop_counters clock fails K cm.changed _

theorem dumpChangedKeys_issued (cm : CounterManager) (db : RedisDB)
    (fails : RedisCmd → Bool) (clock : String → Time) :
    (dumpChangedKeys cm db fails clock).2.2 = cm.changed.map (passCmd clock cm.counters) := by
  unfold dumpChangedKeys
  simpa using dumpLoop_issued clock fails cm.changed
    { counters := cm.counters, redis := db, issued := [] }

theorem dumpChangedKeys_redis (cm : CounterManager) (db : RedisDB)
    (fails : RedisCmd → Bool) (clock : String → Time) :
    (dumpChangedKeys cm db fails clock).2.1
      = (cm.changed.map (passCmd clock cm.counters)).foldl (passExec clock fails) db := by
  unfold dumpChangedKeys
  exact dumpLoop_redis clock fails cm.changed
    { counters := cm.counters, redis := db, issued := [] }

/-- A dirty key whose entry is unexpired at its clock reading has its `Set` issued. -/
theorem dumpChangedKeys_issued_of_live (cm : CounterManager) (db : RedisDB)
    (fails : RedisCmd → Bool) (clock : String → Time) (K : String) (e : counterEntry)
    (hK : K ∈ cm.changed) (he : cm.counters K = some e) (hlive : clock K ≤ e.expiry) :
    RedisCmd.Set K e.value DefaultExpiration ∈ (dumpChangedKeys cm db fails clock).2.2 := by
  rw [dumpChangedKeys_issued, ← dumpCmd_of_live (clock K) cm.counters K e he hlive]
  exact List.mem_map_of_mem (passCmd clock cm.counters) hK

/-- A dirty key whose entry is expired at its clock reading has its `Del` issued. -/
theorem dumpChangedKeys_issued_of_expired (cm : CounterManager) (db : RedisDB)
    (fails : RedisCmd → Bool) (clock : String → Time) (K : String) (e : counterEntry)
    (hK : K ∈ cm.changed) (he : cm.counters K = some e) (hexp : e.expiry < clock K) :
    RedisCmd.Del K ∈ (dumpChangedKeys cm db fails clock).2.2 := by
  rw [dumpChangedKeys_issued, ← dumpCmd_of_expired (clock K) cm.counters K e he hexp]
  exact List.mem_map_of_mem (passCmd clock cm.counters) hK

/-- Every call a pass issues about `K` is the call of `K`. -/
theorem dumpChangedKeys_issued_about (cm : CounterManager) (db : RedisDB)
    (fails : RedisCmd → Bool) (clock : String → Time) (K : String) (c : RedisCmd)
    (hc : c ∈ (dumpChangedKeys cm db fails clock).2.2) (hkey : cmdKey c = K) :
    c = dumpCmd (clock K) cm.counters K := by
  rw [dumpChangedKeys_issued] at hc
  obtain ⟨k2, _, hk2⟩ := List.mem_map.mp hc
  have hk2K : k2 = K := by
    rw [← hk2, cmdKey_passCmd] at hkey
    exact hkey
  rw [← hk2, hk2K]
  rfl

/-- The remote binding of a dirty key, unexpired at its clock reading, after a pass in which
its write succeeds. -/
theorem dumpChangedKeys_redis_of_live (cm : CounterManager) (db : RedisDB)
    (fails : RedisCmd → Bool) (clock : String → Time) (K : String) (e : counterEntry)
    (hK : K ∈ cm.changed) (he : cm.counters K = some e) (hlive : clock K ≤ e.expiry)
    (hok : fails (RedisCmd.Set K e.value DefaultExpiration) = false) :
    redisLookup (dumpChangedKeys cm db fails clock).2.1 K
      = some { value := e.value, expireAt := some (clock K + DefaultExpiration) } := by
  have hcmd := dumpCmd_of_live (clock K) cm.counters K e he hlive
  have hissued := dumpChangedKeys_issued cm db fails clock
  have h := redis_foldl_set clock fails K e.value DefaultExpiration hok
    (cm.changed.map (passCmd clock cm.counters)) db
    (by
      intro c hc hkey
      rw [← hissued] at hc
      rw [dumpChangedKeys_issued_about cm db fails clock K c hc hkey, hcmd])
    (Or.inr (by
      rw [← hissued]
      exact dumpChangedKeys_issued_of_live cm db fails clock K e hK he hlive))
  rw [dumpChangedKeys_redis, h, if_neg DefaultExpiration_ne_zero]

/-- C5. After a reconciliation pass the dirty set is empty, whatever the state, the clock
readings and whichever remote calls fail; the table after the pass, and the calls issued (one
per dirty key, none skipped), are the same for every remote store and every pattern of
failures. -/
theorem dumpChangedKeys_clears_changed (cm : CounterManager) (db : RedisDB)
    (fails : RedisCmd → Bool) (clock : String → Time) :
    (dumpChangedKeys cm db fails clock).1.changed = [] ∧
    (∀ (db2 : RedisDB) (fails2 : RedisCmd → Bool),
      (dumpChangedKeys cm db2 fails2 clock).1.counters
        = (dumpChangedKeys cm db fails clock).1.counters) ∧
    (∀ (db2 : RedisDB) (fails2 : RedisCmd → Bool),
      (dumpChangedKeys cm db2 fails2 clock).2.2 = (dumpChangedKeys cm db fails clock).2.2) ∧
    (dumpChangedKeys cm db fails clock).2.2.map cmdKey = cm.changed := by
  refine ⟨rfl, ?_, ?_, ?_⟩
  · intro db2 fails2
    funext K
    rw [dumpChangedKeys_counters, dumpChangedKeys_counters]
  · intro db2 fails2
    rw [dumpChangedKeys_issued, dumpChangedKeys_issued]
  · rw [dumpChangedKeys_issued, List.map_map]
    have hid : cmdKey ∘ passCmd clock cm.counters = id :=
      funext (fun K => cmdKey_passCmd clock cm.counters K)
    rw [hid, List.map_id]

/-- C6 as stated fails for a key that expires during the pass. Both entries of `twoDirty`
expire at time 200 and the pass starts at time 100, so `counter_q` is dirty and unexpired at
the start; the pass examines it at time 250, after the remote call for `counter_p`, finds it
expired and deletes it: with every remote call succeeding, no `Set` is issued for it and the
remote store does not hold it after the pass. -/
theorem dumpChangedKeys_flushes_counterexample :
    "counter_q" ∈ twoDirty.changed ∧
    twoDirty.counters "counter_q" = some { value := 5, expiry := 200 } ∧
    isExpired 100 { value := 5, expiry := 200 } = false ∧
    (100 ≤ lateClock "counter_p" ∧ lateClock "counter_p" ≤ lateClock "counter_q") ∧
    (dumpChangedKeys twoDirty [] (fun _ => false) lateClock).2.2
      = [RedisCmd.Set "counter_p" 3 DefaultExpiration, RedisCmd.Del "counter_q"] ∧
    redisLookup (dumpChangedKeys twoDirty [] (fun _ => false) lateClock).2.1 "counter_q"
      = none := by
  decide

/-- C6, amended. Flush postcondition: a key that is dirty at the start of a pass and whose
entry `e` is unexpired at the clock reading the pass takes when it examines the key has a `Set`
with the value of `e` and the default expiration issued for it, and when that call succeeds
the remote store afterwards binds the key to the value of `e` with expiry 24 hours after that
reading, whatever the local expiry of `e`; the entry stays in the table. -/
theorem dumpChangedKeys_flushes (cm : CounterManager) (db : RedisDB)
    (fails : RedisCmd → Bool) (clock : String → Time) (K : String) (e : counterEntry)
    (hK : K ∈ cm.changed) (he : cm.counters K = some e) (hlive : clock K ≤ e.expiry)
    (hok : fails (RedisCmd.Set K e.value DefaultExpiration) = false) :
    RedisCmd.Set K e.value (24 * Hour) ∈ (dumpChangedKeys cm db fails clock).2.2 ∧
    redisLookup (dumpChangedKeys cm db fails clock).2.1 K
      = some { value := e.value, expireAt := some (clock K + 24 * Hour) } ∧
    (dumpChangedKeys cm db fails clock).1.counters K = some e := by
  have hne : ¬ e.expiry < clock K := not_lt.mpr hlive
  refine ⟨?_, ?_, ?_⟩
  · exact dumpChangedKeys_issued_of_live cm db fails clock K e hK he hlive
  · exact dumpChangedKeys_redis_of_live cm db fails clock K e hK he hlive hok
  · rw [dumpChangedKeys_counters]
    simp [he, expiredOrMissing, isExpired, hne]

/-- C7. Eviction postcondition: a key that is dirty at the start of a pass and whose entry
expired before the pass started (hence before the reading the pass takes for the key, which
is not earlier than the start) has a `Del` issued for it and is absent from the table after
the pass, so `Get` on it returns 0; this holds whether or not the remote delete fails. -/
theorem dumpChangedKeys_evicts (cm : CounterManager) (db : RedisDB)
    (fails : RedisCmd → Bool) (clock : String → Time) (start : Time) (K : String)
    (e : counterEntry) (hK : K ∈ cm.changed) (he : cm.counters K = some e)
    (hexp : e.expiry < start) (hclock : start ≤ clock K) :
    RedisCmd.Del K ∈ (dumpChangedKeys cm db fails clock).2.2 ∧
    (dumpChangedKeys cm db fails clock).1.counters K = none ∧
    (∀ k : String, cm.keyPrefix ++ k = K → Get (dumpChangedKeys cm db fails clock).1 k = 0) := by
  have hx : e.expiry < clock K := lt_of_lt_of_le hexp hclock
  have hgone : (dumpChangedKeys cm db fails clock).1.counters K = none := by
    rw [dumpChangedKeys_counters]
    simp [hK, he, expiredOrMissing, isExpired, hx]
  refine ⟨dumpChangedKeys_issued_of_expired cm db fails clock K e hK he hx, hgone, ?_⟩
  intro k hk
  have hkp : (dumpChangedKeys cm db fails clock).1.keyPrefix = cm.keyPrefix := rfl
  unfold Get
  rw [hkp, hk, hgone]

/-- An instance of amended C6: in a pass where every delete fails and `counter_c` (value 7,
local expiry 200) is examined at time 100, the key is stored remotely with value 7 and expiry
`100 + 24h`. -/
theorem dumpChangedKeys_flushes_witness :
    redisLookup
        (dumpChangedKeys exampleManager []
          (fun c => decide (c = RedisCmd.Del (cmdKey c))) (fun _ => 100)).2.1 "counter_c"
      = some { value := 7, expireAt := some (100 + 24 * Hour) } :=
  (dumpChangedKeys_flushes exampleManager [] (fun c => decide (c = RedisCmd.Del (cmdKey c)))
    (fun _ => 100) "counter_c" { value := 7, expiry := 200 } (by decide) (by decide)
    (by decide) (by decide)).2.1

/-- An instance of C7: in a pass that starts at time 100 and examines `counter_b` (expiry 50)
at time 120, with every remote call failing, the delete of `counter_b` is issued and `Get` on
`b` returns 0 afterwards. -/
theorem dumpChangedKeys_evicts_witness :
    RedisCmd.Del "counter_b"
      ∈ (dumpChangedKeys exampleManager [] (fun _ => true) (fun _ => 120)).2.2 ∧
    Get (dumpChangedKeys exampleManager [] (fun _ => true) (fun _ => 120)).1 "b" = 0 :=
  ⟨(dumpChangedKeys_evicts exampleManager [] (fun _ => true) (fun _ => 120) 100 "counter_b"
      { value := 4, expiry := 50 } (by decide) (by decide) (by decide) (by decide)).1,
   (dumpChangedKeys_evicts exampleManager [] (fun _ => true) (fun _ => 120) 100 "counter_b"
      { value := 4, expiry := 50 } (by decide) (by decide) (by decide) (by decide)).2.2 "b"
      (by decide)⟩

/-! ## Get -/

/-- C3. `Get` returns 0 when the table has no entry for `"counter_" ++ k`, in particular on a
freshly built manager that loaded nothing for that key, and otherwise the stored value
whatever the expiry: for an entry with value `v` whose expiry is already before `now`,
`Get` returns `v` while `Increment` at `now` returns 1. -/
theorem Get_returns_stored_value (cm : CounterManager) (k : String)
    (hp : cm.keyPrefix = "counter_") :
    (cm.counters ("counter_" ++ k) = none → Get cm k = 0) ∧
    (∀ (keysRes : Except String (List String)) (getRes : String → Except String Int)
        (ttlRes : String → Except String Duration) (t : Time),
      (∀ keys, keysRes = Except.ok keys → "counter_" ++ k ∉ keys) →
      Get (NewCounterManager keysRes getRes ttlRes t) k = 0) ∧
    (∀ e : counterEntry, cm.counters ("counter_" ++ k) = some e → Get cm k = e.value) ∧
    (∀ (e : counterEntry) (now : Time), cm.counters ("counter_" ++ k) = some e →
      e.expiry < now → Get cm k = e.value ∧ (Increment cm k now).1 = 1) := by
  refine ⟨?_, ?_, ?_, ?_⟩
  · intro h
    simp [Get, hp, h]
  · intro keysRes getRes ttlRes t hnot
    cases keysRes with
    | error err => rfl
    | ok keys =>
      have h := loadKeys_of_not_mem getRes ttlRes t ("counter_" ++ k) keys (fun _ => none)
        (hnot keys rfl)
      have hc : (NewCounterManager (Except.ok keys) getRes ttlRes t).counters
          ("counter_" ++ k) = none := h
      have hkp : (NewCounterManager (Except.ok keys) getRes ttlRes t).keyPrefix
          = "counter_" := rfl
      unfold Get
      rw [hkp, hc]
  · intro e h
    simp [Get, hp, h]
  · intro e now h hlt
    refine ⟨by simp [Get, hp, h], ?_⟩
    exact (Increment_fresh cm k now (Or.inr ⟨e, by rw [hp]; exact h, hlt⟩)).1

/-- An instance of C3: on the example manager, at time 100, `Get` on the missing `a` returns 0,
`Get` on the expired `b` (expiry 50) returns its value 4, and `Increment` on `b` returns 1. -/
theorem Get_returns_stored_value_witness :
    Get exampleManager "a" = 0 ∧
    Get (NewCounterManager (Except.ok ["counter_z"]) (fun _ => Except.ok 3)
      (fun _ => Except.ok 60) 0) "a" = 0 ∧
    Get exampleManager "c" = 7 ∧
    (Get exampleManager "b" = 4 ∧ (Increment exampleManager "b" 100).1 = 1) :=
  ⟨(Get_returns_stored_value exampleManager "a" rfl).1 (by decide),
   (Get_returns_stored_value exampleManager "a" rfl).2.1 (Except.ok ["counter_z"])
      (fun _ => Except.ok 3) (fun _ => Except.ok 60) 0
      (fun keys h => by cases h; decide),
   (Get_returns_stored_value exampleManager "c" rfl).2.2.1 { value := 7, expiry := 200 }
      (by decide),
   (Get_returns_stored_value exampleManager "b" rfl).2.2.2 { value := 4, expiry := 50 } 100
      (by decide) (by decide)⟩

/-- C10, evaluated on the code. One `Increment` of `k` at time 0 and a pass five seconds later
leave the entry (value 1, expiry 24h) in the table and the dirty set empty; one nanosecond
after the expiry the entry is expired, no later pass removes it, and `Get` returns 1, not 0. -/
theorem Get_expired_returns_value :
    flushedManager.counters "counter_k" = some { value := 1, expiry := DefaultExpiration } ∧
    isExpired (DefaultExpiration + 1) { value := 1, expiry := DefaultExpiration } = true ∧
    Get flushedManager "k" = 1 ∧
    Get (dumpChangedKeys flushedManager [] (fun _ => false)
      (fun _ => DefaultExpiration + 1)).1 "k" = 1 := by
  decide

/-! ## The expiry test -/

theorem isExpired_iff (now : Time) (e : counterEntry) :
    isExpired now e = true ↔ e.expiry < now := by
  simp [isExpired]

/-- C4 as stated fails where the expiry equals the clock reading: the entry
(value 7, expiry 200) is not expired at time 200, `Increment` on it returns 8, not 1, and a
pass that examines the dirty key at time 200 keeps it in the table and issues no delete for
it. -/
theorem isExpired_at_expiry_counterexample :
    ¬ (isExpired 200 { value := 7, expiry := 200 } = true ↔
        ({ value := 7, expiry := 200 } : counterEntry).expiry ≤ 200) ∧
    (Increment exampleManager "c" 200).1 = 8 ∧
    (dumpChangedKeys exampleManager [] (fun _ => false) (fun _ => 200)).1.counters "counter_c"
      = some { value := 7, expiry := 200 } ∧
    RedisCmd.Del "counter_c"
      ∉ (dumpChangedKeys exampleManager [] (fun _ => false) (fun _ => 200)).2.2 := by
  decide

/-- C4, amended. An entry is treated as expired exactly when its expiry is strictly before
the current time: `isExpired` holds iff `e.expiry < now`. `Increment` on a key whose entry
expired strictly before `now` replaces it with a fresh entry and returns 1, and a pass that
examines the key at `now` deletes and evicts it if it is dirty; when the expiry equals `now`
the entry is live: `Increment` adds one to it in place and a pass that examines the dirty key
at `now` writes it and keeps it. -/
theorem isExpired_iff_expiry_before (e : counterEntry) (now : Time) :
    (isExpired now e = true ↔ e.expiry < now) ∧
    (∀ (cm : CounterManager) (k : String), cm.keyPrefix = "counter_" →
      cm.counters ("counter_" ++ k) = some e →
      (e.expiry < now →
        (Increment cm k now).1 = 1 ∧
        (Increment cm k now).2.counters ("counter_" ++ k)
          = some { value := 1, expiry := now + DefaultExpiration }) ∧
      (e.expiry = now →
        (Increment cm k now).1 = wrapInt64 (e.value + 1) ∧
        (Increment cm k now).2.counters ("counter_" ++ k)
          = some { value := wrapInt64 (e.value + 1), expiry := e.expiry })) ∧
    (∀ (cm : CounterManager) (db : RedisDB) (fails : RedisCmd → Bool) (clock : String → Time)
        (K : String), clock K = now → K ∈ cm.changed → cm.counters K = some e →
      (e.expiry < now →
        RedisCmd.Del K ∈ (dumpChangedKeys cm db fails clock).2.2 ∧
        (dumpChangedKeys cm db fails clock).1.counters K = none) ∧
      (e.expiry = now →
        RedisCmd.Set K e.value DefaultExpiration ∈ (dumpChangedKeys cm db fails clock).2.2 ∧
        RedisCmd.Del K ∉ (dumpChangedKeys cm db fails clock).2.2 ∧
        (dumpChangedKeys cm db fails clock).1.counters K = some e)) := by
  refine ⟨isExpired_iff now e, ?_, ?_⟩
  · intro cm k hp he
    have he2 : cm.counters (cm.keyPrefix ++ k) = some e := by rw [hp]; exact he
    refine ⟨?_, ?_⟩
    · intro hlt
      have h := Increment_fresh cm k now (Or.inr ⟨e, he2, hlt⟩)
      rw [hp] at h
      exact h
    · intro heq
      have h := Increment_live cm k now e he2 (le_of_eq heq.symm)
      rw [hp] at h
      exact h
  · intro cm db fails clock K hclock hK he
    refine ⟨?_, ?_⟩
    · intro hlt
      have hx : e.expiry < clock K := by rw [hclock]; exact hlt
      refine ⟨dumpChangedKeys_issued_of_expired cm db fails clock K e hK he hx, ?_⟩
      rw [dumpChangedKeys_counters]
      simp [hK, he, expiredOrMissing, isExpired, hx]
    · intro heq
      have hle : clock K ≤ e.expiry := by rw [hclock]; exact le_of_eq heq.symm
      have hne : ¬ e.expiry < clock K := not_lt.mpr hle
      refine ⟨dumpChangedKeys_issued_of_live cm db fails clock K e hK he hle, ?_, ?_⟩
      · intro hmem
        have habout := dumpChangedKeys_issued_about cm db fails clock K _ hmem rfl
        rw [dumpCmd_of_live (clock K) cm.counters K e he hle] at habout
        cases habout
      · rw [dumpChangedKeys_counters]
        simp [he, expiredOrMissing, isExpired, hne]

/-- An instance of amended C4 on the example manager: at time 200 the entry `counter_c`
(expiry 200) is incremented to 8 and written by a pass that examines it then; at time 100 the
entry `counter_b` (expiry 50) is reset to 1 by `Increment` and evicted by the pass. -/
theorem isExpired_iff_expiry_before_witness :
    (Increment exampleManager "c" 200).1 = wrapInt64 (7 + 1) ∧
    RedisCmd.Set "counter_c" 7 DefaultExpiration
      ∈ (dumpChangedKeys exampleManager [] (fun _ => false) (fun _ => 200)).2.2 ∧
    (Increment exampleManager "b" 100).1 = 1 ∧
    (dumpChangedKeys exampleManager [] (fun _ => false) (fun _ => 100)).1.counters "counter_b"
      = none :=
  ⟨(((isExpired_iff_expiry_before { value := 7, expiry := 200 } 200).2.1 exampleManager "c"
      rfl (by decide)).2 (by decide)).1,
   (((isExpired_iff_expiry_before { value := 7, expiry := 200 } 200).2.2 exampleManager []
      (fun _ => false) (fun _ => 200) "counter_c" rfl (by decide) (by decide)).2
      (by decide)).1,
   (((isExpired_iff_expiry_before { value := 4, expiry := 50 } 100).2.1 exampleManager "b"
      rfl (by decide)).1 (by decide)).1,
   (((isExpired_iff_expiry_before { value := 4, expiry := 50 } 100).2.2 exampleManager []
      (fun _ => false) (fun _ => 100) "counter_b" rfl (by decide) (by decide)).1
      (by decide)).2⟩

/-! ## Restart -/

theorem matchCounterPattern_append (k : String) : matchCounterPattern ("counter_" ++ k) = true := by
  unfold matchCounterPattern
  rw [String.data_append, List.isPrefixOf_iff_prefix]
  exact List.prefix_append _ _

theorem mem_keys_of_redisLookup (K : String) (E : RedisEntry) :
    ∀ db : RedisDB, redisLookup db K = some E → K ∈ db.map (fun p => p.1) := by
  intro db
  induction db with
  | nil => intro h; cases h
  | cons p rest ih =>
    obtain ⟨k, e⟩ := p
    intro h
    rw [redisLookup_cons] at h
    by_cases hk : k = K
    · subst hk
      simp
    · rw [if_neg hk] at h
      exact List.mem_cons_of_mem _ (ih h)

theorem mem_redisKeys (now : Time) (db : RedisDB) (K : String) (E : RedisEntry)
    (hE : redisLookup db K = some E) (hlive : redisLive now E = true)
    (hpat : matchCounterPattern K = true) : K ∈ redisKeys now db := by
  unfold redisKeys
  rw [List.mem_filter]
  refine ⟨List.mem_dedup.mpr (mem_keys_of_redisLookup K E db hE), ?_⟩
  simp [hpat, hE, hlive]

theorem redisGet_of_redisLookup (now : Time) (db : RedisDB) (K : String) (E : RedisEntry)
    (hE : redisLookup db K = some E) (hlive : redisLive now E = true) :
    redisGet now db K = Except.ok E.value := by
  simp [redisGet, hE, hlive]

/-- C8 as stated fails for a key that expires during the pass. `counter_q` of `twoDirty`
(value 5, expiry 200) is dirty and unexpired when the pass starts at time 100, and `Get` on `q`
returns 5; the pass examines it at time 250, finds it expired and deletes it remotely and
locally, every remote call succeeding. A manager built at time 300 from the resulting remote
store answers 0 to `Get` on `q`. -/
theorem restart_round_trip_counterexample :
    "counter_q" ∈ twoDirty.changed ∧
    isExpired 100 { value := 5, expiry := 200 } = false ∧
    Get twoDirty "q" = 5 ∧
    Get (NewCounterManager
          (Except.ok (redisKeys 300 (dumpChangedKeys twoDirty [] (fun _ => false) lateClock).2.1))
          (redisGet 300 (dumpChangedKeys twoDirty [] (fun _ => false) lateClock).2.1)
          (fun _ => Except.ok 86000000000000) 300) "q" = 0 ∧
    Get (NewCounterManager
          (Except.ok (redisKeys 300 (dumpChangedKeys twoDirty [] (fun _ => false) lateClock).2.1))
          (redisGet 300 (dumpChangedKeys twoDirty [] (fun _ => false) lateClock).2.1)
          (fun _ => Except.ok 86000000000000) 300) "p" = 3 := by
  decide

/-- C8, amended. Restart round trip. A pass in which every remote call succeeds, then a fresh
manager built at `t2` from the resulting remote store (enumeration and value fetches answered
by the store, TTL fetches answered by `ttl`): for every key `k` that was dirty and still
unexpired at the clock reading the pass took when it examined the key, and whose remote entry
has not expired at `t2`, `Get` on the new manager returns what `Get` returned on the old one,
before and after the pass, and the new entry expires at `t2 + ttl`, or at `t2 + 24h` when the
remote TTL is not positive. -/
theorem restart_round_trip (cm : CounterManager) (db : RedisDB) (fails : RedisCmd → Bool)
    (clock : String → Time) (t2 : Time) (k : String) (e : counterEntry)
    (ttl : String → Duration)
    (hp : cm.keyPrefix = "counter_")
    (hK : "counter_" ++ k ∈ cm.changed)
    (he : cm.counters ("counter_" ++ k) = some e)
    (hlive : clock ("counter_" ++ k) ≤ e.expiry)
    (hok : ∀ c, fails c = false)
    (hremote : t2 < clock ("counter_" ++ k) + DefaultExpiration) :
    Get (NewCounterManager
          (Except.ok (redisKeys t2 (dumpChangedKeys cm db fails clock).2.1))
          (redisGet t2 (dumpChangedKeys cm db fails clock).2.1)
          (fun key => Except.ok (ttl key)) t2) k = Get cm k ∧
    Get (dumpChangedKeys cm db fails clock).1 k = Get cm k ∧
    (NewCounterManager
          (Except.ok (redisKeys t2 (dumpChangedKeys cm db fails clock).2.1))
          (redisGet t2 (dumpChangedKeys cm db fails clock).2.1)
          (fun key => Except.ok (ttl key)) t2).counters ("counter_" ++ k)
      = some { value := e.value
               expiry := if ttl ("counter_" ++ k) ≤ 0 then t2 + DefaultExpiration
                         else t2 + ttl ("counter_" ++ k) } := by
  have hstored := dumpChangedKeys_redis_of_live cm db fails clock ("counter_" ++ k) e hK he
    hlive (hok _)
  have hl : redisLive t2
      { value := e.value, expireAt := some (clock ("counter_" ++ k) + DefaultExpiration) }
      = true := by
    simp [redisLive, hremote]
  have hmem := mem_redisKeys t2 _ _ _ hstored hl (matchCounterPattern_append k)
  have hget := redisGet_of_redisLookup t2 _ _ _ hstored hl
  have hload := loadKeys_of_mem (redisGet t2 (dumpChangedKeys cm db fails clock).2.1)
    (fun key => Except.ok (ttl key)) t2 ("counter_" ++ k) _ (fun _ => none) hmem
  rw [hget] at hload
  have hnew : (NewCounterManager
        (Except.ok (redisKeys t2 (dumpChangedKeys cm db fails clock).2.1))
        (redisGet t2 (dumpChangedKeys cm db fails clock).2.1)
        (fun key => Except.ok (ttl key)) t2).counters ("counter_" ++ k)
      = some { value := e.value
               expiry := if ttl ("counter_" ++ k) ≤ 0 then t2 + DefaultExpiration
                         else t2 + ttl ("counter_" ++ k) } := by
    show loadKeys _ _ t2 (fun _ => none) _ ("counter_" ++ k) = _
    rw [hload]
    by_cases ht : ttl ("counter_" ++ k) ≤ 0 <;> simp [ht]
  have hold : Get cm k = e.value := by
    simp [Get, hp, he]
  have hkept : (dumpChangedKeys cm db fails clock).1.counters ("counter_" ++ k) = some e := by
    have hne : ¬ e.expiry < clock ("counter_" ++ k) := not_lt.mpr hlive
    rw [dumpChangedKeys_counters]
    simp [he, expiredOrMissing, isExpired, hne]
  refine ⟨?_, ?_, hnew⟩
  · rw [hold]
    unfold Get
    show (match (NewCounterManager _ _ _ t2).counters ("counter_" ++ k) with
      | none => (0 : Int)
      | some entry => entry.value) = e.value
    rw [hnew]
  · rw [hold]
    have hkp : (dumpChangedKeys cm db fails clock).1.keyPrefix = "counter_" := hp
    unfold Get
    rw [hkp, hkept]

/-- An instance of amended C8: five increments of `k`, a pass that examines the key at 5 s,
a restart at 6 s with the remote TTL reported as 86399 s. `Get` on the new manager
returns 5. -/
theorem restart_round_trip_witness :
    Get (NewCounterManager
          (Except.ok (redisKeys 6000000000
            (dumpChangedKeys fiveIncrements [] (fun _ => false) (fun _ => 5000000000)).2.1))
          (redisGet 6000000000
            (dumpChangedKeys fiveIncrements [] (fun _ => false) (fun _ => 5000000000)).2.1)
          (fun _ => Except.ok 86399000000000) 6000000000) "k" = Get fiveIncrements "k" ∧
    Get fiveIncrements "k" = 5 :=
  ⟨(restart_round_trip fiveIncrements [] (fun _ => false) (fun _ => 5000000000) 6000000000 "k"
      { value := 5, expiry := 0 + DefaultExpiration } (fun _ => 86399000000000)
      rfl (by decide) (by decide) (by decide) (fun _ => rfl) (by decide)).1,
   by decide⟩

/-! ## The expiration written by a flush -/

/-- C11, evaluated on the code. A pass examines the dirty entry `counter_c` (value 7,
local expiry 200) at time 100: it is unexpired and has 100 ns left, but the `Set` issued for it
carries the default expiration of 24 hours, and no `Set` with the time left is issued. -/
theorem dumpChangedKeys_sets_default_expiration :
    exampleManager.counters "counter_c" = some { value := 7, expiry := 200 } ∧
    isExpired 100 { value := 7, expiry := 200 } = false ∧
    (dumpChangedKeys exampleManager [] (fun _ => false) (fun _ => 100)).2.2
      = [RedisCmd.Del "counter_b", RedisCmd.Set "counter_c" 7 86400000000000] ∧
    RedisCmd.Set "counter_c" 7 (200 - 100)
      ∉ (dumpChangedKeys exampleManager [] (fun _ => false) (fun _ => 100)).2.2 ∧
    redisLookup (dumpChangedKeys exampleManager [] (fun _ => false) (fun _ => 100)).2.1
        "counter_c"
      = some { value := 7, expireAt := some (100 + 86400000000000) } := by
  decide

/-! ## Monotonicity of the stored value -/

theorem Increment_counters_of_ne (cm : CounterManager) (k : String) (now : Time) (K : String)
    (h : K ≠ cm.keyPrefix ++ k) :
    (Increment cm k now).2.counters K = cm.counters K := by
  simp [Increment, Function.update_noteq h]

theorem Increment_changed (cm : CounterManager) (k : String) (now : Time) :
    (Increment cm k now).2.changed = cm.changed.insert (cm.keyPrefix ++ k) := by
  simp [Increment]

theorem Increment_counters_self (cm : CounterManager) (k : String) (now : Time) :
    ∃ e, (Increment cm k now).2.counters (cm.keyPrefix ++ k) = some e ∧
      e.value = (Increment cm k now).1 := by
  simp [Increment]

/-- The slot of a key after a pass: unchanged, or emptied when the key was dirty and its
entry expired at the clock reading of the key. -/
theorem dumpChangedKeys_counters_cases (cm : CounterManager) (db : RedisDB)
    (fails : RedisCmd → Bool) (clock : String → Time) (K : String) (e : counterEntry)
    (he : cm.counters K = some e) :
    (dumpChangedKeys cm db fails clock).1.counters K = some e ∨
    ((dumpChangedKeys cm db fails clock).1.counters K = none ∧ K ∈ cm.changed ∧
      e.expiry < clock K) := by
  rw [dumpChangedKeys_counters]
  by_cases hK : K ∈ cm.changed
  · by_cases hx : e.expiry < clock K
    · right
      simp [hK, he, expiredOrMissing, isExpired, hx]
    · left
      simp [he, expiredOrMissing, isExpired, hx]
  · left
    simp [hK, he]

/-- C12 as stated fails at the largest `int64`: a manager that loaded `counter_k` with value
9223372036854775807 holds an unexpired entry at time 1, and `Increment` on it stores and
returns -9223372036854775808, which is below the value before. -/
theorem Increment_overflow_counterexample :
    saturatedManager.counters "counter_k"
      = some { value := 9223372036854775807, expiry := 60000000000 } ∧
    isExpired 1 { value := 9223372036854775807, expiry := 60000000000 } = false ∧
    (Increment saturatedManager "k" 1).1 = -9223372036854775808 ∧
    Get (Increment saturatedManager "k" 1).2 "k" = -9223372036854775808 ∧
    ¬ (Get saturatedManager "k" ≤ (Increment saturatedManager "k" 1).1) := by
  decide

/-- C12, amended. For an entry that is present and unexpired with an `int64` value `v` below
the largest `int64`, `Increment` stores and returns `v + 1`, an `int64` above `v`, and keeps the
expiry. No other operation lowers the value of an entry that stays in the table: an
`Increment` of another key leaves the slot as it is, `Get` changes nothing, and a pass either
keeps the entry unchanged or removes it, and removes only dirty entries that have expired
when it examines them. -/
theorem Increment_monotone_below_max (cm : CounterManager) (k : String) (now : Time)
    (e : counterEntry) (hp : cm.keyPrefix = "counter_")
    (he : cm.counters ("counter_" ++ k) = some e) (hlive : now ≤ e.expiry)
    (hlo : minInt64 ≤ e.value) (hhi : e.value < maxInt64) :
    ((Increment cm k now).1 = e.value + 1 ∧
      e.value ≤ (Increment cm k now).1 ∧
      (Increment cm k now).1 ≤ maxInt64 ∧
      (Increment cm k now).2.counters ("counter_" ++ k)
        = some { value := e.value + 1, expiry := e.expiry }) ∧
    (∀ (k2 : String) (t : Time), "counter_" ++ k2 ≠ "counter_" ++ k →
      (Increment cm k2 t).2.counters ("counter_" ++ k) = some e) ∧
    (∀ (db : RedisDB) (k2 : String), step (cm, db) (Op.get k2) = (cm, db)) ∧
    (∀ (db : RedisDB) (fails : RedisCmd → Bool) (clock : String → Time),
      (dumpChangedKeys cm db fails clock).1.counters ("counter_" ++ k) = some e ∨
      ((dumpChangedKeys cm db fails clock).1.counters ("counter_" ++ k) = none ∧
        "counter_" ++ k ∈ cm.changed ∧ e.expiry < clock ("counter_" ++ k))) := by
  have he2 : cm.counters (cm.keyPrefix ++ k) = some e := by rw [hp]; exact he
  have hw : wrapInt64 (e.value + 1) = e.value + 1 :=
    wrapInt64_of_range _ (by unfold minInt64 at *; omega) (by unfold maxInt64 at *; omega)
  have h := Increment_live cm k now e he2 hlive
  rw [hw, hp] at h
  refine ⟨⟨h.1, ?_, ?_, h.2⟩, ?_, ?_, ?_⟩
  · rw [h.1]; omega
  · rw [h.1]; omega
  · intro k2 t hne
    rw [Increment_counters_of_ne cm k2 t _ (by rw [hp]; exact fun h2 => hne h2.symm)]
    exact he
  · intro db k2
    rfl
  · intro db fails clock
    exact dumpChangedKeys_counters_cases cm db fails clock _ e he

/-- An instance of amended C12 on the example manager: at time 100 the live entry `counter_c`
(value 7, expiry 200) is incremented to 8, and a pass at time 100 keeps the entry. -/
theorem Increment_monotone_below_max_witness :
    (Increment exampleManager "c" 100).1 = 7 + 1 ∧
    (7 : Int) ≤ (Increment exampleManager "c" 100).1 :=
  ⟨(Increment_monotone_below_max exampleManager "c" 100 { value := 7, expiry := 200 } rfl
      (by decide) (by decide) (by decide) (by decide)).1.1,
   (Increment_monotone_below_max exampleManager "c" 100 { value := 7, expiry := 200 } rfl
      (by decide) (by decide) (by decide) (by decide)).1.2.1⟩

/-! ## Read-your-write and the frame of Increment -/

theorem Get_Increment_self (cm : CounterManager) (k : String) (now : Time) :
    Get (Increment cm k now).2 k = (Increment cm k now).1 := by
  obtain ⟨e, he, hv⟩ := Increment_counters_self cm k now
  unfold Get
  rw [Increment_keyPrefix, he]
  exact hv

theorem prefixed_key_injective (p k k2 : String) (h : p ++ k2 = p ++ k) : k2 = k := by
  have hd : (p ++ k2).data = (p ++ k).data := congrArg String.data h
  rw [String.data_append, String.data_append] at hd
  exact String.ext (List.append_cancel_left hd)

/-- C13. Read-your-write: in every state, `Get` on `k` right after `Increment` on `k` returns
exactly the value that `Increment` returned. The remote store plays no part in it, and a pass
run right after the increment, examining the key while the entry is unexpired, leaves that
answer as it is. -/
theorem Get_after_Increment (cm : CounterManager) (k : String) (now : Time) :
    Get (Increment cm k now).2 k = (Increment cm k now).1 ∧
    (∀ (db : RedisDB) (fails : RedisCmd → Bool) (clock : String → Time) (e : counterEntry),
      (Increment cm k now).2.counters (cm.keyPrefix ++ k) = some e →
      clock (cm.keyPrefix ++ k) ≤ e.expiry →
      Get (dumpChangedKeys (Increment cm k now).2 db fails clock).1 k
        = (Increment cm k now).1) := by
  refine ⟨Get_Increment_self cm k now, ?_⟩
  intro db fails clock e he hle
  have hne : ¬ e.expiry < clock (cm.keyPrefix ++ k) := not_lt.mpr hle
  have hkept : (dumpChangedKeys (Increment cm k now).2 db fails clock).1.counters
      (cm.keyPrefix ++ k) = some e := by
    rw [dumpChangedKeys_counters]
    simp [he, expiredOrMissing, isExpired, hne]
  have hkp : (dumpChangedKeys (Increment cm k now).2 db fails clock).1.keyPrefix
      = cm.keyPrefix := Increment_keyPrefix cm k now
  have hget := Get_Increment_self cm k now
  unfold Get at hget ⊢
  rw [Increment_keyPrefix, he] at hget
  rw [hkp, hkept]
  exact hget

/-- An instance of C13 on the example manager: `Increment` on `c` at time 100 returns 8 and
`Get` then returns 8, also after a pass that examines the key at time 150 and in which every
remote call fails. -/
theorem Get_after_Increment_witness :
    Get (Increment exampleManager "c" 100).2 "c" = 8 ∧
    Get (dumpChangedKeys (Increment exampleManager "c" 100).2 [] (fun _ => true)
        (fun _ => 150)).1 "c"
      = (Increment exampleManager "c" 100).1 :=
  ⟨(Get_after_Increment exampleManager "c" 100).1,
   (Get_after_Increment exampleManager "c" 100).2 [] (fun _ => true) (fun _ => 150)
      { value := 8, expiry := 200 } (by decide) (by decide)⟩

/-- C16. Frame of `Increment` and `Get`: for logical keys `k2 ≠ k` the prefixed keys differ,
and `Increment` on `k` leaves the table slot of `k2` (value and expiry) and its membership in
the dirty set as they were, so `Get` on `k2` returns the same value before and after; `Get`
itself leaves the manager and the remote store as they were. -/
theorem Increment_frame (cm : CounterManager) (k k2 : String) (now : Time) (hne : k2 ≠ k) :
    cm.keyPrefix ++ k2 ≠ cm.keyPrefix ++ k ∧
    (Increment cm k now).2.counters (cm.keyPrefix ++ k2) = cm.counters (cm.keyPrefix ++ k2) ∧
    (cm.keyPrefix ++ k2 ∈ (Increment cm k now).2.changed ↔ cm.keyPrefix ++ k2 ∈ cm.changed) ∧
    Get (Increment cm k now).2 k2 = Get cm k2 ∧
    (∀ (db : RedisDB) (k3 : String), step (cm, db) (Op.get k3) = (cm, db)) := by
  have hK : cm.keyPrefix ++ k2 ≠ cm.keyPrefix ++ k :=
    fun h => hne (prefixed_key_injective cm.keyPrefix k k2 h)
  have hslot := Increment_counters_of_ne cm k now (cm.keyPrefix ++ k2) hK
  refine ⟨hK, hslot, ?_, ?_, ?_⟩
  · rw [Increment_changed, List.mem_insert_iff]
    constructor
    · rintro (h | h)
      · exact absurd h hK
      · exact h
    · intro h
      exact Or.inr h
  · unfold Get
    rw [Increment_keyPrefix, hslot]
  · intro db k3
    rfl

/-- An instance of C16 on the example manager: `Increment` on `b` at time 100 leaves the slot
of `counter_c` and the answer of `Get` on `c` as they were. -/
theorem Increment_frame_witness :
    (Increment exampleManager "b" 100).2.counters ("counter_" ++ "c")
      = some { value := 7, expiry := 200 } ∧
    Get (Increment exampleManager "b" 100).2 "c" = Get exampleManager "c" :=
  ⟨(Increment_frame exampleManager "b" "c" 100 (by decide)).2.1,
   (Increment_frame exampleManager "b" "c" 100 (by decide)).2.2.2.1⟩

/-! ## Sequences of operations -/

theorem run_cons (st : CounterManager × RedisDB) (op : Op) (ops : List Op) :
    run st (op :: ops) = run (step st op) ops := by
  rfl

theorem step_keyPrefix (st : CounterManager × RedisDB) (op : Op) :
    (step st op).1.keyPrefix = st.1.keyPrefix := by
  cases op with
  | increment k t => exact Increment_keyPrefix st.1 k t
  | get k => rfl
  | dump fails clock => rfl

/-- One operation keeps every dirty key present in the table. -/
theorem step_changed_present (st : CounterManager × RedisDB) (op : Op)
    (h : ∀ K ∈ st.1.changed, ∃ e, st.1.counters K = some e) :
    ∀ K ∈ (step st op).1.changed, ∃ e, (step st op).1.counters K = some e := by
  cases op with
  | increment k t =>
    intro K hK
    show ∃ e, (Increment st.1 k t).2.counters K = some e
    have hK2 : K ∈ (Increment st.1 k t).2.changed := hK
    rw [Increment_changed, List.mem_insert_iff] at hK2
    by_cases hself : K = st.1.keyPrefix ++ k
    · obtain ⟨e, he, _⟩ := Increment_counters_self st.1 k t
      exact ⟨e, by rw [hself]; exact he⟩
    · rw [Increment_counters_of_ne st.1 k t K hself]
      rcases hK2 with h1 | h1
      · exact absurd h1 hself
      · exact h K h1
  | get k => exact h
  | dump fails clock =>
    intro K hK
    cases hK

theorem run_changed_present :
    ∀ (ops : List Op) (st : CounterManager × RedisDB),
      (∀ K ∈ st.1.changed, ∃ e, st.1.counters K = some e) →
      ∀ K ∈ (run st ops).1.changed, ∃ e, (run st ops).1.counters K = some e := by
  intro ops
  induction ops with
  | nil => intro st h; exact h
  | cons op ops ih =>
    intro st h
    rw [run_cons]
    exact ih (step st op) (step_changed_present st op h)

/-- One operation that is not an `Increment` of the key `K` leaves a clean `K` clean and its
slot as it was. -/
theorem step_untouched (st : CounterManager × RedisDB) (op : Op) (K : String)
    (hclean : K ∉ st.1.changed)
    (hop : ∀ k t, op = Op.increment k t → st.1.keyPrefix ++ k ≠ K) :
    (step st op).1.counters K = st.1.counters K ∧ K ∉ (step st op).1.changed := by
  cases op with
  | increment k t =>
    have hne : K ≠ st.1.keyPrefix ++ k := fun h => hop k t rfl h.symm
    refine ⟨Increment_counters_of_ne st.1 k t K hne, ?_⟩
    show K ∉ (Increment st.1 k t).2.changed
    rw [Increment_changed, List.mem_insert_iff]
    rintro (h | h)
    · exact hne h
    · exact hclean h
  | get k => exact ⟨rfl, hclean⟩
  | dump fails clock =>
    refine ⟨?_, ?_⟩
    · show (dumpChangedKeys st.1 st.2 fails clock).1.counters K = st.1.counters K
      rw [dumpChangedKeys_counters]
      simp [hclean]
    · intro h
      cases h

theorem run_untouched (K : String) :
    ∀ (ops : List Op) (st : CounterManager × RedisDB),
      K ∉ st.1.changed →
      (∀ k t, Op.increment k t ∈ ops → st.1.keyPrefix ++ k ≠ K) →
      (run st ops).1.counters K = st.1.counters K ∧ K ∉ (run st ops).1.changed ∧
        (run st ops).1.keyPrefix = st.1.keyPrefix := by
  intro ops
  induction ops with
  | nil => intro st hclean _; exact ⟨rfl, hclean, rfl⟩
  | cons op ops ih =>
    intro st hclean hops
    have hstep := step_untouched st op K hclean
      (fun k t hk => hops k t (by rw [hk]; exact List.mem_cons_self _ _))
    have hkp := step_keyPrefix st op
    have hrec := ih (step st op) hstep.2
      (fun k t hk => by rw [hkp]; exact hops k t (List.mem_cons_of_mem _ hk))
    rw [run_cons]
    exact ⟨hrec.1.trans hstep.1, hrec.2.1, hrec.2.2.trans hkp⟩

/-- C15. Dirty-set invariant: in every state reached from a freshly constructed manager by a
sequence of `Increment` calls, `Get` calls and reconciliation passes, every key of the dirty
set has an entry in the counter table (expired or not). -/
theorem changed_keys_present (keysRes : Except String (List String))
    (getRes : String → Except String Int) (ttlRes : String → Except String Duration)
    (t0 : Time) (db : RedisDB) (ops : List Op) (K : String)
    (hK : K ∈ (run (NewCounterManager keysRes getRes ttlRes t0, db) ops).1.changed) :
    ∃ e, (run (NewCounterManager keysRes getRes ttlRes t0, db) ops).1.counters K = some e := by
  apply run_changed_present ops (NewCounterManager keysRes getRes ttlRes t0, db) _ K hK
  intro K2 hK2
  cases hK2

/-- An instance of C15: after an increment of `k`, a `Get`, a pass, and an increment of `j`,
the dirty key `counter_j` has an entry in the table. -/
theorem changed_keys_present_witness :
    ∃ e, (run (NewCounterManager (Except.ok []) (fun _ => Except.error "redis: nil")
        (fun _ => Except.error "redis: nil") 0, [])
      [Op.increment "k" 0, Op.get "k", Op.dump (fun _ => false) (fun _ => 5000000000),
        Op.increment "j" 7000000000]).1.counters "counter_j" = some e :=
  changed_keys_present (Except.ok []) (fun _ => Except.error "redis: nil")
    (fun _ => Except.error "redis: nil") 0 []
    [Op.increment "k" 0, Op.get "k", Op.dump (fun _ => false) (fun _ => 5000000000),
      Op.increment "j" 7000000000] "counter_j" (by decide)

/-! ## The frame of the reconciliation pass -/

/-- C17 as stated fails for a key that expires during the pass. Both dirty entries of
`twoDirty` expire at time 200 and are unexpired when the pass starts at time 100; the pass
keeps `counter_p`, examined at time 150, and removes `counter_q`, examined at time 250. The
table afterwards is not the table before without the dirty entries expired at the start of
the pass, nor at any other single instant. -/
theorem dumpChangedKeys_frame_counterexample :
    isExpired 100 { value := 3, expiry := 200 } = false ∧
    isExpired 100 { value := 5, expiry := 200 } = false ∧
    (dumpChangedKeys twoDirty [] (fun _ => false) lateClock).1.counters "counter_p"
      = some { value := 3, expiry := 200 } ∧
    (dumpChangedKeys twoDirty [] (fun _ => false) lateClock).1.counters "counter_q" = none ∧
    ¬ ∃ now : Time, ∀ K : String,
      (dumpChangedKeys twoDirty [] (fun _ => false) lateClock).1.counters K =
        if K ∈ twoDirty.changed ∧ expiredOrMissing now (twoDirty.counters K) = true then none
        else twoDirty.counters K := by
  refine ⟨by decide, by decide, by decide, by decide, ?_⟩
  rintro ⟨now, h⟩
  have hp := h "counter_p"
  have hq := h "counter_q"
  have ep : (dumpChangedKeys twoDirty [] (fun _ => false) lateClock).1.counters "counter_p"
      = some { value := 3, expiry := 200 } := by decide
  have eq : (dumpChangedKeys twoDirty [] (fun _ => false) lateClock).1.counters "counter_q"
      = none := by decide
  have cp : twoDirty.counters "counter_p" = some { value := 3, expiry := 200 } := by decide
  have cq : twoDirty.counters "counter_q" = some { value := 5, expiry := 200 } := by decide
  have mp : "counter_p" ∈ twoDirty.changed := by decide
  have mq : "counter_q" ∈ twoDirty.changed := by decide
  rw [ep, cp] at hp
  rw [eq, cq] at hq
  by_cases hx : (200 : Time) < now
  · simp [mp, expiredOrMissing, isExpired, hx] at hp
  · simp [mq, expiredOrMissing, isExpired, hx] at hq

/-- C17, amended. Frame of the reconciliation pass: the table afterwards is the table before
without the dirty keys whose entries were expired at the clock reading the pass took when it
examined them, every other slot keeping its value and its expiry; in particular a dirty entry
that is unexpired when examined keeps its local expiry. A key that is not dirty is not
examined: through any sequence of passes, `Get` calls and `Increment` calls on other keys its
slot stays as it is, expired or not, and `Get` keeps returning its stored value. -/
theorem dumpChangedKeys_frame (cm : CounterManager) (db : RedisDB) (fails : RedisCmd → Bool)
    (clock : String → Time) :
    (∀ (K : String) (e : counterEntry), K ∈ cm.changed → cm.counters K = some e →
      e.expiry < clock K → (dumpChangedKeys cm db fails clock).1.counters K = none) ∧
    (∀ K : String, ¬ (K ∈ cm.changed ∧ ∃ e, cm.counters K = some e ∧ e.expiry < clock K) →
      (dumpChangedKeys cm db fails clock).1.counters K = cm.counters K) ∧
    (∀ (K : String) (e : counterEntry), K ∈ cm.changed → cm.counters K = some e →
      clock K ≤ e.expiry → (dumpChangedKeys cm db fails clock).1.counters K = some e) ∧
    (∀ (k : String) (ops : List Op), cm.keyPrefix ++ k ∉ cm.changed →
      (∀ k2 t, Op.increment k2 t ∈ ops → cm.keyPrefix ++ k2 ≠ cm.keyPrefix ++ k) →
      (run (cm, db) ops).1.counters (cm.keyPrefix ++ k) = cm.counters (cm.keyPrefix ++ k) ∧
      Get (run (cm, db) ops).1 k = Get cm k) := by
  refine ⟨?_, ?_, ?_, ?_⟩
  · intro K e hK he hexp
    rw [dumpChangedKeys_counters]
    simp [hK, he, expiredOrMissing, isExpired, hexp]
  · intro K hnot
    rw [dumpChangedKeys_counters]
    by_cases hK : K ∈ cm.changed
    · cases he : cm.counters K with
      | none => simp
      | some e =>
        have hne : ¬ e.expiry < clock K := fun hx => hnot ⟨hK, e, he, hx⟩
        simp [expiredOrMissing, isExpired, hne]
    · simp [hK]
  · intro K e hK he hlive
    have hne : ¬ e.expiry < clock K := not_lt.mpr hlive
    rw [dumpChangedKeys_counters]
    simp [he, expiredOrMissing, isExpired, hne]
  · intro k ops hclean hops
    have h := run_untouched (cm.keyPrefix ++ k) ops (cm, db) hclean hops
    refine ⟨h.1, ?_⟩
    unfold Get
    rw [h.2.2, h.1]

/-- An instance of amended C17: the entry `counter_k` (value 1, expiry 24h) of the flushed
manager is not dirty; two passes after its expiry keep it and `Get` still returns 1. On
`twoDirty`, the pass with the readings of `lateClock` removes `counter_q`, expired when
examined at time 250, keeps `counter_p`, examined at time 150, with its expiry 200, and leaves
the slot of the clean key `counter_a` as it was. -/
theorem dumpChangedKeys_frame_witness :
    Get (run (flushedManager, [])
      [Op.dump (fun _ => false) (fun _ => DefaultExpiration + 1), Op.get "k",
        Op.dump (fun _ => true) (fun _ => DefaultExpiration + 5000000001)]).1 "k"
      = Get flushedManager "k" ∧
    Get flushedManager "k" = 1 ∧
    (dumpChangedKeys twoDirty [] (fun _ => false) lateClock).1.counters "counter_q" = none ∧
    (dumpChangedKeys twoDirty [] (fun _ => false) lateClock).1.counters "counter_p"
      = some { value := 3, expiry := 200 } ∧
    (dumpChangedKeys twoDirty [] (fun _ => false) lateClock).1.counters "counter_a"
      = twoDirty.counters "counter_a" :=
  ⟨((dumpChangedKeys_frame flushedManager [] (fun _ => false) (fun _ => 0)).2.2.2 "k"
      [Op.dump (fun _ => false) (fun _ => DefaultExpiration + 1), Op.get "k",
        Op.dump (fun _ => true) (fun _ => DefaultExpiration + 5000000001)]
      (by decide) (fun k2 t h => by simp at h)).2,
   by decide,
   (dumpChangedKeys_frame twoDirty [] (fun _ => false) lateClock).1 "counter_q"
      { value := 5, expiry := 200 } (by decide) (by decide) (by decide),
   (dumpChangedKeys_frame twoDirty [] (fun _ => false) lateClock).2.2.1 "counter_p"
      { value := 3, expiry := 200 } (by decide) (by decide) (by decide),
   (dumpChangedKeys_frame twoDirty [] (fun _ => false) lateClock).2.1 "counter_a"
      (fun h => absurd h.1 (by decide))⟩

end DistributedCounter
